import Mathlib

/-!
Shallow embedding of the jelly_graph call-graph engine:
the location model (`src/jelly_graph/classes/jelly.py`), the attribution
resolver and weight aggregator (`src/jelly_graph/weight/weight.py`),
the call-graph builder (`src/jelly_graph/graph/build_callgraph.py`),
the path tracer (`src/jelly_graph/graph/trace.py`) and the
external-record matcher (`src/jelly_graph/find/match.py`).

Python dicts are embedded as association lists in insertion order
(lookup returns the first binding; assignment overwrites in place or
appends), Python sets as lists with membership semantics, and the
NetworkX `DiGraph` as an explicit node list plus edge list in insertion
order.
-/

namespace JellyGraph

abbrev FileID := Nat
abbrev FunctionID := Nat
abbrev CallID := Nat

/-- Dataclass `location` from `classes/jelly.py`: position of a function
or call. Rows and columns are plain Python ints, embedded as `Int`. -/
structure location where
  fileid : FileID
  startrow : Int
  startcolumn : Int
  endrow : Int
  endcolumn : Int
deriving DecidableEq, Repr

/-- Dataclass `JellyObject` from `classes/jelly.py`. The Python dicts
`files`, `functions`, `calls` are association lists in insertion order. -/
structure JellyObject where
  files : List (FileID × String)
  functions : List (FunctionID × location)
  calls : List (CallID × location)
  fun2fun : List (FunctionID × FunctionID)
  call2fun : List (CallID × FunctionID)
deriving DecidableEq, Repr

/-- Dataclass `dependMap` from `classes/jelly.py`: a Python dict from
(src function id, dst function id) to a call count, as an association
list in insertion order. -/
structure dependMap where
  dependMap : List ((FunctionID × FunctionID) × Nat)
deriving DecidableEq, Repr

/-- Lookup in an association list embedding a Python dict:
first binding for the key, `none` when the key is absent. -/
def alookup {α β : Type} [DecidableEq α] : List (α × β) → α → Option β
  | [], _ => none
  | kv :: rest, k => if kv.1 = k then some kv.2 else alookup rest k

/-- Python dict assignment `d[k] = v`: overwrite the first binding of
`k` in place, or append a new binding when `k` is absent. -/
def dictInsert {α β : Type} [DecidableEq α] : List (α × β) → α → β → List (α × β)
  | [], k, v => [(k, v)]
  | kv :: rest, k, v => if kv.1 = k then (k, v) :: rest else kv :: dictInsert rest k v

/-- Predicate `is_call_in_function` from `weight/weight.py`: the call is wholly
inside the function by file id and row bounds (columns ignored). -/
def is_call_in_function (call_loc func_loc : location) : Bool :=
  call_loc.fileid == func_loc.fileid
    && func_loc.startrow ≤ call_loc.startrow
    && call_loc.endrow ≤ func_loc.endrow

/-- The sort key used by `find_src_function`:
`(endrow - startrow, endcolumn - startcolumn)`. -/
def spanKey (l : location) : Int × Int :=
  (l.endrow - l.startrow, l.endcolumn - l.startcolumn)

/-- Python tuple `<` on the two-component key: lexicographic. -/
def keyLt (p q : Int × Int) : Bool :=
  p.1 < q.1 || (p.1 == q.1 && p.2 < q.2)

/-- Python `min(xs, key=...)`: fold keeping the first element whose key
is minimal (a later element replaces the best only when strictly
smaller). -/
def minByKey (best : FunctionID × location) :
    List (FunctionID × location) → FunctionID × location
  | [] => best
  | x :: xs => minByKey (if keyLt (spanKey x.2) (spanKey best.2) then x else best) xs

/-- Resolver `find_src_function` from `weight/weight.py`: filter the functions in
the call's file, keep those containing the call, and return the one with
the smallest `(row span, column span)` key, or `none`. -/
def find_src_function (call_loc : location)
    (functions : List (FunctionID × location)) : Option FunctionID :=
  match (functions.filter (fun p => p.2.fileid == call_loc.fileid)).filter
      (fun p => is_call_in_function call_loc p.2) with
  | [] => none
  | m :: ms => some (minByKey m ms).1

/-- The counting update of `dependency_weights`:
`if key in d: d[key] += 1 else: d[key] = 1`. -/
def bumpCount : List ((FunctionID × FunctionID) × Nat) → FunctionID × FunctionID →
    List ((FunctionID × FunctionID) × Nat)
  | [], k => [(k, 1)]
  | kv :: rest, k => if kv.1 = k then (k, kv.2 + 1) :: rest else kv :: bumpCount rest k

/-- One iteration of the `for call_id, dst_func_id in jelly_obj.call2fun`
loop of `dependency_weights`. -/
def depStep (j : JellyObject) (acc : List ((FunctionID × FunctionID) × Nat))
    (e : CallID × FunctionID) : List ((FunctionID × FunctionID) × Nat) :=
  match alookup j.calls e.1 with
  | none => acc
  | some call_loc =>
    match find_src_function call_loc j.functions with
    | none => acc
    | some src => bumpCount acc (src, e.2)

/-- Aggregator `dependency_weights` from `weight/weight.py`: count, per
(source function, target function) pair, the `call2fun` edges whose call
is recorded and attributes to that source. -/
def dependency_weights (j : JellyObject) : dependMap :=
  ⟨j.call2fun.foldl (depStep j) []⟩

/-- Accessor `get_dependency` from `weight/weight.py`: stored count or 0. -/
def get_dependency (m : dependMap) (src dst : FunctionID) : Nat :=
  (alookup m.dependMap (src, dst)).getD 0

/-- Python `lstrip("/")` used by `match_function`: drop every leading slash. -/
def stripSlashes (s : String) : String :=
  String.mk (s.toList.dropWhile (fun c => c == '/'))

/-- Matcher `match_function` from `find/match.py`: find the file whose
slash-stripped path equals the slash-stripped query, then the first
function in that file whose start and end rows equal the query exactly. -/
def match_function (j : JellyObject) (filepath : String)
    (start_row end_row : Int) : Option FunctionID :=
  match j.files.find? (fun kv => stripSlashes kv.2 == stripSlashes filepath) with
  | none => none
  | some fileEntry =>
    (j.functions.find? (fun kv =>
        kv.2.fileid == fileEntry.1
          && kv.2.startrow == start_row
          && kv.2.endrow == end_row)).map (·.1)

/-- A NetworkX `DiGraph`: nodes and weighted edges in insertion order,
no duplicate nodes and at most one edge per ordered pair (maintained by
`add_edge`). -/
structure DiGraph where
  nodes : List FunctionID
  edges : List (FunctionID × FunctionID × Int)
deriving DecidableEq, Repr

/-- NetworkX node insertion: appends the node unless already present. -/
def addNode (g : DiGraph) (n : FunctionID) : DiGraph :=
  if n ∈ g.nodes then g else { g with nodes := g.nodes ++ [n] }

/-- Overwrite the weight of the ordered pair `(u, v)` in place, or append
a fresh edge when the pair is absent. -/
def setEdge : List (FunctionID × FunctionID × Int) → FunctionID → FunctionID → Int →
    List (FunctionID × FunctionID × Int)
  | [], u, v, w => [(u, v, w)]
  | e :: es, u, v, w =>
    if e.1 = u ∧ e.2.1 = v then (u, v, w) :: es else e :: setEdge es u v w

/-- NetworkX `add_edge(u, v, weight=w)`: inserts both endpoints as nodes,
then stores the weighted edge. -/
def add_edge (g : DiGraph) (u v : FunctionID) (w : Int) : DiGraph :=
  { nodes := (addNode (addNode g u) v).nodes,
    edges := setEdge (addNode (addNode g u) v).edges u v w }

/-- Builder `build_callgraph` from `graph/build_callgraph.py`: one weighted edge
per dependency-map entry. -/
def build_callgraph (m : dependMap) : DiGraph :=
  m.dependMap.foldl (fun g kv => add_edge g kv.1.1 kv.1.2 (kv.2 : Int)) ⟨[], []⟩

/-- NetworkX `graph.predecessors(n)`: sources of the edges into `n`,
in edge insertion order. -/
def predecessors (g : DiGraph) (n : FunctionID) : List FunctionID :=
  (g.edges.filter (fun e => e.2.1 == n)).map (·.1)

/-- NetworkX `graph.successors(n)`: targets of the edges out of `n`,
in edge insertion order. -/
def successors (g : DiGraph) (n : FunctionID) : List FunctionID :=
  (g.edges.filter (fun e => e.1 == n)).map (·.2.1)

/-- NetworkX `graph.in_degree(n)`: number of edges into `n`. -/
def in_degree (g : DiGraph) (n : FunctionID) : Nat :=
  (g.edges.filter (fun e => e.2.1 == n)).length

/-- NetworkX `graph.out_degree(n)`: number of edges out of `n`. -/
def out_degree (g : DiGraph) (n : FunctionID) : Nat :=
  (g.edges.filter (fun e => e.1 == n)).length

/-- NetworkX `graph[u][v].get("weight", 1)`: stored weight of the edge, 1 when the
edge carries no weight (the model always stores one, so the default only
covers the absent pair). -/
def edgeWeight (g : DiGraph) (u v : FunctionID) : Int :=
  match g.edges.find? (fun e => e.1 == u && e.2.1 == v) with
  | some e => e.2.2
  | none => 1

/-- Helper `find_root_nodes` from `graph/trace.py`: nodes of in-degree 0. -/
def find_root_nodes (g : DiGraph) : List FunctionID :=
  g.nodes.filter (fun n => in_degree g n == 0)

/-- Helper `find_leaf_nodes` from `graph/trace.py`: nodes of out-degree 0. -/
def find_leaf_nodes (g : DiGraph) : List FunctionID :=
  g.nodes.filter (fun n => out_degree g n == 0)

/-- Dataclass `SrcPathInfo` from `classes/trace.py`. -/
structure SrcPathInfo where
  path : List FunctionID
  total_weight : Int
  root_node : FunctionID
  parents : List (FunctionID × location)
deriving DecidableEq, Repr

/-- Dataclass `DstPathInfo` from `classes/trace.py`. -/
structure DstPathInfo where
  path : List FunctionID
  total_weight : Int
  children : List (FunctionID × location)
deriving DecidableEq, Repr

/-- Accumulator of the `dfs` closure in `search_src`: the `all_paths`
list and the `visited_paths` set of emitted node sequences. -/
abbrev SrcState := List SrcPathInfo × List (List FunctionID)

/-- Accumulator of the `dfs` closure in `search_dst`. -/
abbrev DstState := List DstPathInfo × List (List FunctionID)

/-- The inner `dfs` of `search_src`, with an explicit fuel argument.
The fuel only has to dominate the depth guard `path.length > maxDepth`:
`search_src` passes `maxDepth + 1`, so fuel 0 is never reached (the
guard fires first) and the clause for it is dead code. Each entry first
checks the depth guard, then emits a record when the node is a root
(deduplicating on the node sequence), and otherwise recurses into every
predecessor not yet on the current path. -/
def dfsSrc (g : DiGraph) (j : JellyObject) (roots : List FunctionID)
    (maxDepth : Nat) :
    Nat → FunctionID → List FunctionID → Int → List FunctionID →
    List (FunctionID × location) → SrcState → SrcState
  | 0, _, _, _, _, _, st => st
  | fuel + 1, node, path, weight, visited, parentsInfo, st =>
    if path.length > maxDepth then st
    else if node ∈ roots then
      if path ∈ st.2 then st
      else (st.1 ++ [⟨path, weight, node, parentsInfo⟩], st.2 ++ [path])
    else
      (predecessors g node).foldl
        (fun st' p =>
          if p ∈ visited then st'
          else
            dfsSrc g j roots maxDepth fuel p (path ++ [p])
              (weight + edgeWeight g p node) (visited ++ [p])
              (match alookup j.functions p with
               | some loc => dictInsert parentsInfo p loc
               | none => parentsInfo)
              st')
        st

/-- The inner `dfs` of `search_dst`, mirrored on edge direction. -/
def dfsDst (g : DiGraph) (j : JellyObject) (leaves : List FunctionID)
    (maxDepth : Nat) :
    Nat → FunctionID → List FunctionID → Int → List FunctionID →
    List (FunctionID × location) → DstState → DstState
  | 0, _, _, _, _, _, st => st
  | fuel + 1, node, path, weight, visited, childrenInfo, st =>
    if path.length > maxDepth then st
    else if node ∈ leaves then
      if path ∈ st.2 then st
      else (st.1 ++ [⟨path, weight, childrenInfo⟩], st.2 ++ [path])
    else
      (successors g node).foldl
        (fun st' s =>
          if s ∈ visited then st'
          else
            dfsDst g j leaves maxDepth fuel s (path ++ [s])
              (weight + edgeWeight g node s) (visited ++ [s])
              (match alookup j.functions s with
               | some loc => dictInsert childrenInfo s loc
               | none => childrenInfo)
              st')
        st

/-- The `initial_parents` / `initial_children` dict of the searches:
the start node's own location when the function table records it. -/
def initLocs (j : JellyObject) (start : FunctionID) :
    List (FunctionID × location) :=
  match alookup j.functions start with
  | some loc => [(start, loc)]
  | none => []

/-- Tracer `search_src` from `graph/trace.py`: all paths from `start` back to
the root frontier. `none` embeds the `ValueError` raised when `start` is
not a node of the graph. -/
def search_src (g : DiGraph) (j : JellyObject) (start : FunctionID)
    (maxDepth : Nat) : Option (List SrcPathInfo) :=
  if start ∈ g.nodes then
    if start ∈ find_root_nodes g then
      some [⟨[start], 0, start, []⟩]
    else
      some (dfsSrc g j (find_root_nodes g) maxDepth (maxDepth + 1) start [start] 0
        [start] (initLocs j start) ([], [])).1
  else none

/-- Tracer `search_dst` from `graph/trace.py`: all paths from `start` down to
the leaf frontier. `none` embeds the `ValueError` raised when `start` is
not a node of the graph. -/
def search_dst (g : DiGraph) (j : JellyObject) (start : FunctionID)
    (maxDepth : Nat) : Option (List DstPathInfo) :=
  if start ∈ g.nodes then
    if start ∈ find_leaf_nodes g then
      some [⟨[start], 0, initLocs j start⟩]
    else
      some (dfsDst g j (find_leaf_nodes g) maxDepth (maxDepth + 1) start [start] 0
        [start] (initLocs j start) ([], [])).1
  else none

/-! Concrete instances used by scenario theorems and witnesses. -/

/-- Function A of the spec scenario: rows 1-20. -/
def locA : location := ⟨0, 1, 0, 20, 0⟩

/-- Function B of the spec scenario: rows 5-10, nested in A. -/
def locB : location := ⟨0, 5, 4, 10, 0⟩

/-- The scenario call at rows 6-7. -/
def callC : location := ⟨0, 6, 2, 7, 5⟩

/-- An empty jelly object. -/
def jEmpty : JellyObject := ⟨[], [], [], [], []⟩

/-- A jelly object with two recorded functions. -/
def j7 : JellyObject := ⟨[], [(1, locA), (2, locB)], [], [], []⟩

/-- The 3-cycle of the spec scenario: A→B (w=2), B→C (w=3), C→A (w=1),
with A = 1, B = 2, C = 3. -/
def dm6 : dependMap := ⟨[((1, 2), 2), ((2, 3), 3), ((3, 1), 1)]⟩

/-- A diamond toward roots: 2→1, 3→1, 4→2, 4→3. -/
def dmDemo : dependMap := ⟨[((2, 1), 1), ((3, 1), 1), ((4, 2), 1), ((4, 3), 1)]⟩

/-- A single edge 1→2, making node 1 a root. -/
def dm7 : dependMap := ⟨[((1, 2), 3)]⟩

/-- A single edge 2→1, making node 2 the root above 1. -/
def dm8 : dependMap := ⟨[((2, 1), 5)]⟩

/-- A jelly object exercising the weight aggregator: function 10 spans
rows 1-20 of file 0, function 11 spans rows 5-10 (nested), function 12
lives in file 1. Calls 100 and 101 sit inside function 11, call 102 is
top-level in file 1, call 103 is unrecorded. -/
def jW : JellyObject :=
  ⟨[(0, "a.js"), (1, "b.js")],
   [(10, ⟨0, 1, 0, 20, 0⟩), (11, ⟨0, 5, 4, 10, 0⟩), (12, ⟨1, 1, 0, 9, 0⟩)],
   [(100, ⟨0, 6, 2, 7, 5⟩), (101, ⟨0, 6, 0, 6, 9⟩), (102, ⟨1, 30, 0, 30, 5⟩)],
   [],
   [(100, 12), (101, 12), (102, 10), (103, 10), (100, 10)]⟩

/-- The attribution outcome of one `call2fun` edge in
`dependency_weights`: `none` when the edge is skipped (unrecorded call
id, or call site contained in no function), otherwise the dependency key
`(owning function, target function)`. -/
def attributesTo (j : JellyObject) (e : CallID × FunctionID) :
    Option (FunctionID × FunctionID) :=
  match alookup j.calls e.1 with
  | none => none
  | some call_loc =>
    match find_src_function call_loc j.functions with
    | none => none
    | some src => some (src, e.2)

/-- Sum of the stored counts of a dependency map. -/
def sumVals (m : List ((FunctionID × FunctionID) × Nat)) : Nat :=
  (m.map (·.2)).sum

/-- Invariant of every record emitted by the `search_src` DFS: the path
starts at the queried function, ends at a root, repeats no node, and the
parents map binds exactly the path nodes recorded in the function table
to their locations. -/
def SrcRecOK (j : JellyObject) (roots : List FunctionID) (start : FunctionID)
    (r : SrcPathInfo) : Prop :=
  r.path.head? = some start ∧
  (∃ t, r.path.getLast? = some t ∧ t ∈ roots) ∧
  r.path.Nodup ∧
  (∀ n loc, alookup r.parents n = some loc ↔
    (n ∈ r.path ∧ alookup j.functions n = some loc))

/-- Invariant of every record emitted by the `search_dst` DFS, mirrored:
paths end at a leaf and the children map binds exactly the path nodes
recorded in the function table. -/
def DstRecOK (j : JellyObject) (leaves : List FunctionID) (start : FunctionID)
    (r : DstPathInfo) : Prop :=
  r.path.head? = some start ∧
  (∃ t, r.path.getLast? = some t ∧ t ∈ leaves) ∧
  r.path.Nodup ∧
  (∀ n loc, alookup r.children n = some loc ↔
    (n ∈ r.path ∧ alookup j.functions n = some loc))

/-! Helper lemmas about the embedded dict and fold operations. -/

theorem foldl_preserve {α β : Type} (P : β → Prop) (f : β → α → β) :
    ∀ (l : List α) (b : β), P b → (∀ b' a, a ∈ l → P b' → P (f b' a)) →
      P (l.foldl f b) := by
  intro l
  induction l with
  | nil => intro b hb _; exact hb
  | cons a l ih =>
    intro b hb hf
    exact ih (f b a) (hf b a (by simp) hb)
      (fun b' a' ha' => hf b' a' (by simp [ha']))

theorem alookup_dictInsert {α β : Type} [DecidableEq α]
    (m : List (α × β)) (k : α) (v : β) (k' : α) :
    alookup (dictInsert m k v) k' = if k = k' then some v else alookup m k' := by
  induction m with
  | nil => simp [dictInsert, alookup]
  | cons kv rest ih =>
    by_cases h1 : kv.1 = k
    · by_cases h2 : k = k' <;> simp [dictInsert, alookup, h1, h2]
    · by_cases h2 : kv.1 = k'
      · have h3 : ¬ k = k' := fun he => h1 (h2.trans he.symm)
        have h4 : ¬ k' = k := fun he => h3 he.symm
        simp [dictInsert, alookup, h1, h2, h3, h4]
      · simp [dictInsert, alookup, h1, h2, ih]

theorem alookup_nil_eq {α β : Type} [DecidableEq α] (k : α) :
    alookup ([] : List (α × β)) k = none := rfl

theorem initLocs_char (j : JellyObject) (start : FunctionID) :
    ∀ n loc, alookup (initLocs j start) n = some loc ↔
      (n ∈ [start] ∧ alookup j.functions n = some loc) := by
  intro n loc
  unfold initLocs
  cases h : alookup j.functions start with
  | none =>
    simp only [alookup_nil_eq]
    constructor
    · intro hc; cases hc
    · rintro ⟨hn, hl⟩
      simp only [List.mem_singleton] at hn
      rw [hn] at hl
      rw [h] at hl
      cases hl
  | some l0 =>
    by_cases hn : start = n
    · subst hn
      simp [alookup, h]
    · have hn' : ¬ n = start := fun he => hn he.symm
      simp [alookup, hn, hn']

theorem concat_head? {α : Type} (l : List α) (a x : α)
    (h : l.head? = some x) : (l ++ [a]).head? = some x := by
  cases l with
  | nil => cases h
  | cons b t => simpa using h

theorem concat_getLast? {α : Type} (l : List α) (a : α) :
    (l ++ [a]).getLast? = some a := by
  rw [List.getLast?_append_cons]
  rfl

theorem concat_nodup {α : Type} (l : List α) (a : α)
    (hn : l.Nodup) (ha : a ∉ l) : (l ++ [a]).Nodup := by
  rw [List.nodup_append]
  refine ⟨hn, List.nodup_singleton a, ?_⟩
  intro b hb hba
  simp only [List.mem_singleton] at hba
  exact ha (hba ▸ hb)

theorem keyLt_iff (p q : Int × Int) :
    keyLt p q = true ↔ (p.1 < q.1 ∨ (p.1 = q.1 ∧ p.2 < q.2)) := by
  simp [keyLt]

theorem keyLt_trans {a b c : Int × Int}
    (h1 : keyLt a b = true) (h2 : keyLt b c = true) : keyLt a c = true := by
  rw [keyLt_iff] at h1 h2 ⊢
  rcases h1 with h1 | ⟨h1, h1'⟩ <;> rcases h2 with h2 | ⟨h2, h2'⟩ <;> omega

theorem keyLt_of_not_lt_of_lt {a b c : Int × Int}
    (h1 : keyLt a b = false) (h2 : keyLt a c = true) : keyLt b c = true := by
  rw [Bool.eq_false_iff, ne_eq, keyLt_iff] at h1
  rw [keyLt_iff] at h2 ⊢
  push_neg at h1
  rcases h2 with h2 | ⟨h2, h2'⟩ <;> omega

theorem minByKey_mem (l : List (FunctionID × location)) :
    ∀ b, minByKey b l ∈ b :: l := by
  induction l with
  | nil => intro b; simp [minByKey]
  | cons x xs ih =>
    intro b
    rw [minByKey]
    cases hx : keyLt (spanKey x.2) (spanKey b.2) with
    | false =>
      rcases List.mem_cons.1 (ih b) with h | h <;> simp [h]
    | true =>
      rcases List.mem_cons.1 (ih x) with h | h <;> simp [h]

theorem minByKey_min (l : List (FunctionID × location)) :
    ∀ b y, y ∈ b :: l →
      keyLt (spanKey y.2) (spanKey (minByKey b l).2) = false := by
  induction l with
  | nil =>
    intro b y hy
    simp only [List.mem_singleton] at hy
    subst hy
    rw [minByKey]
    rcases h : keyLt (spanKey y.2) (spanKey y.2) with _ | _
    · rfl
    · exact absurd h (by rw [keyLt_iff]; omega)
  | cons x xs ih =>
    intro b y hy
    rw [minByKey]
    rcases List.mem_cons.1 hy with hyb | hyx
    · subst hyb
      rcases hbx : keyLt (spanKey x.2) (spanKey y.2) with _ | _
      · simpa [hbx] using ih y y (by simp)
      · simp only [hbx, if_true]
        rcases hres : keyLt (spanKey y.2) (spanKey (minByKey x xs).2) with _ | _
        · rfl
        · have hx : keyLt (spanKey x.2) (spanKey (minByKey x xs).2) = false :=
            ih x x (by simp)
          have := keyLt_trans hbx hres
          rw [this] at hx
          cases hx
    · rcases List.mem_cons.1 hyx with hyx | hyxs
      · subst hyx
        rcases hbx : keyLt (spanKey y.2) (spanKey b.2) with _ | _
        · rw [if_neg (by simp [hbx])]
          rcases hres : keyLt (spanKey y.2) (spanKey (minByKey b xs).2) with _ | _
          · rfl
          · have hb : keyLt (spanKey b.2) (spanKey (minByKey b xs).2) = false :=
              ih b b (by simp)
            have := keyLt_of_not_lt_of_lt hbx hres
            rw [this] at hb
            cases hb
        · simpa [hbx] using ih y y (by simp)
      · split <;> exact ih _ y (by simp [hyxs])

/-- Resolver `find_src_function` described through the matching list it minimizes
over: membership and containment of the returned binding. -/
theorem find_src_function_some (call_loc : location)
    (functions : List (FunctionID × location)) (f : FunctionID)
    (h : find_src_function call_loc functions = some f) :
    ∃ loc, (f, loc) ∈ functions ∧
      is_call_in_function call_loc loc = true ∧
      ∀ q ∈ functions, q.2.fileid = call_loc.fileid →
        is_call_in_function call_loc q.2 = true →
        keyLt (spanKey q.2) (spanKey loc) = false := by
  unfold find_src_function at h
  rcases hm : (functions.filter (fun p => p.2.fileid == call_loc.fileid)).filter
      (fun p => is_call_in_function call_loc p.2) with _ | ⟨m, ms⟩
  · rw [hm] at h; cases h
  · rw [hm] at h
    simp only [Option.some.injEq] at h
    refine ⟨(minByKey m ms).2, ?_, ?_, ?_⟩
    · have hmem := minByKey_mem ms m
      rw [← hm] at hmem
      have := (List.mem_filter.1 hmem).1
      have := (List.mem_filter.1 this).1
      rw [← h]
      simpa using this
    · have hmem := minByKey_mem ms m
      rw [← hm] at hmem
      exact (List.mem_filter.1 hmem).2
    · intro q hq hfile hcont
      have hq' : q ∈ (functions.filter (fun p => p.2.fileid == call_loc.fileid)).filter
          (fun p => is_call_in_function call_loc p.2) := by
        refine List.mem_filter.2 ⟨List.mem_filter.2 ⟨hq, ?_⟩, hcont⟩
        simp [hfile]
      rw [hm] at hq'
      exact minByKey_min ms m q hq'

/-- C1. The attribution resolver `find_src_function` returns a function
only if it shares the call's file and contains the call by the line-only
rule (columns ignored), and among all containing functions in the call's
file it returns one whose `(end_row - start_row, end_col - start_col)`
key is lexicographically minimal. -/
theorem C1_attribution_innermost (call_loc : location)
    (functions : List (FunctionID × location)) (f : FunctionID)
    (h : find_src_function call_loc functions = some f) :
    ∃ loc, (f, loc) ∈ functions ∧
      loc.fileid = call_loc.fileid ∧
      loc.startrow ≤ call_loc.startrow ∧
      call_loc.endrow ≤ loc.endrow ∧
      ∀ q ∈ functions, q.2.fileid = call_loc.fileid →
        q.2.startrow ≤ call_loc.startrow → call_loc.endrow ≤ q.2.endrow →
        keyLt (spanKey q.2) (spanKey loc) = false := by
  obtain ⟨loc, hmem, hcont, hmin⟩ := find_src_function_some call_loc functions f h
  rw [is_call_in_function] at hcont
  simp only [Bool.and_eq_true, beq_iff_eq, decide_eq_true_eq] at hcont
  refine ⟨loc, hmem, hcont.1.1.symm, hcont.1.2, hcont.2, ?_⟩
  intro q hq hfile hsr her
  refine hmin q hq hfile ?_
  rw [is_call_in_function]
  simp [hfile, hsr, her]

/-- Witness for C1 on the spec scenario: functions A (rows 1-20) and
B (rows 5-10, nested in A), a call at rows 6-7 — the resolver returns B
(id 200), and B is a containing function of lexicographically minimal
span among the containing functions. -/
theorem C1_attribution_innermost_witness :
    find_src_function callC [(100, locA), (200, locB)] = some 200 ∧
    (∃ loc, (200, loc) ∈ [(100, locA), (200, locB)] ∧
      loc.fileid = callC.fileid ∧
      loc.startrow ≤ callC.startrow ∧
      callC.endrow ≤ loc.endrow ∧
      ∀ q ∈ [(100, locA), (200, locB)], q.2.fileid = callC.fileid →
        q.2.startrow ≤ callC.startrow → callC.endrow ≤ q.2.endrow →
        keyLt (spanKey q.2) (spanKey loc) = false) :=
  ⟨by decide, C1_attribution_innermost callC [(100, locA), (200, locB)] 200 (by decide)⟩

/-- C9. `match_function` returns a function id only when that function's
file equals the record's file after stripping leading slashes and its
start and end rows equal the record's rows exactly; and when every
function's row pair differs from the record's (e.g. one row off), it
returns `none`. -/
theorem C9_exact_record_match (j : JellyObject) (filepath : String)
    (sr er : Int) :
    (∀ f, match_function j filepath sr er = some f →
      ∃ loc, (f, loc) ∈ j.functions ∧ loc.startrow = sr ∧ loc.endrow = er ∧
        ∃ fid fpath, (fid, fpath) ∈ j.files ∧ loc.fileid = fid ∧
          stripSlashes fpath = stripSlashes filepath) ∧
    ((∀ q ∈ j.functions, q.2.startrow ≠ sr ∨ q.2.endrow ≠ er) →
      match_function j filepath sr er = none) := by
  constructor
  · intro f hf
    unfold match_function at hf
    cases hfile : j.files.find?
        (fun kv => stripSlashes kv.2 == stripSlashes filepath) with
    | none => rw [hfile] at hf; exact Option.noConfusion hf
    | some fe =>
      rw [hfile] at hf
      simp only [Option.map_eq_some'] at hf
      obtain ⟨kv, hkv, hkvf⟩ := hf
      have hmem := List.mem_of_find?_eq_some hkv
      have hpred := List.find?_some hkv
      simp only [Bool.and_eq_true, beq_iff_eq] at hpred
      have hfe_mem := List.mem_of_find?_eq_some hfile
      have hfe_pred := List.find?_some hfile
      simp only [beq_iff_eq] at hfe_pred
      refine ⟨kv.2, ?_, hpred.1.2, hpred.2, fe.1, fe.2, ?_, hpred.1.1, hfe_pred⟩
      · rw [← hkvf]; simpa using hmem
      · simpa using hfe_mem
  · intro hall
    unfold match_function
    cases hfile : j.files.find?
        (fun kv => stripSlashes kv.2 == stripSlashes filepath) with
    | none => rfl
    | some fe =>
      have hnone : j.functions.find? (fun kv =>
          kv.2.fileid == fe.1 && kv.2.startrow == sr && kv.2.endrow == er) = none := by
        rw [List.find?_eq_none]
        intro q hq
        rcases hall q hq with h | h <;> simp [h]
      simp [hnone]

/-- Witness for C9 against `jW`: the record (a.js, 5, 10) matches
function 11 exactly, and a record one row off (rows 5-11) matches no
function. -/
theorem C9_exact_record_match_witness :
    (∃ loc, (11, loc) ∈ jW.functions ∧ loc.startrow = 5 ∧ loc.endrow = 10 ∧
      ∃ fid fpath, (fid, fpath) ∈ jW.files ∧ loc.fileid = fid ∧
        stripSlashes fpath = stripSlashes "/a.js") ∧
    match_function jW "/a.js" 5 11 = none :=
  ⟨(C9_exact_record_match jW "/a.js" 5 10).1 11 (by decide),
   (C9_exact_record_match jW "/a.js" 5 11).2 (by decide)⟩

theorem addNode_mem_nodes (g : DiGraph) (m n : FunctionID) :
    n ∈ (addNode g m).nodes ↔ (n ∈ g.nodes ∨ n = m) := by
  unfold addNode
  by_cases h : m ∈ g.nodes
  · rw [if_pos h]
    constructor
    · exact Or.inl
    · rintro (hn | rfl)
      · exact hn
      · exact h
  · rw [if_neg h]
    simp

theorem addNode_edges (g : DiGraph) (m : FunctionID) :
    (addNode g m).edges = g.edges := by
  unfold addNode
  split <;> rfl

theorem setEdge_mem_self (u v : FunctionID) (w : Int) :
    ∀ es, (u, v, w) ∈ setEdge es u v w := by
  intro es
  induction es with
  | nil => simp [setEdge]
  | cons e es ih =>
    rw [setEdge]
    split
    · simp
    · simpa using Or.inr ih

theorem setEdge_endpoints (u v : FunctionID) (w : Int) :
    ∀ es, ∀ e ∈ es, ∃ e' ∈ setEdge es u v w, e'.1 = e.1 ∧ e'.2.1 = e.2.1 := by
  intro es
  induction es with
  | nil => intro e he; cases he
  | cons e0 es ih =>
    intro e he
    rw [setEdge]
    split
    · rename_i huv
      rcases List.mem_cons.1 he with rfl | he'
      · exact ⟨(u, v, w), by simp, huv.1.symm, huv.2.symm⟩
      · exact ⟨e, by simp [he'], rfl, rfl⟩
    · rcases List.mem_cons.1 he with rfl | he'
      · exact ⟨e, by simp, rfl, rfl⟩
      · obtain ⟨e', he', heq⟩ := ih e he'
        exact ⟨e', by simp [he'], heq⟩

theorem build_callgraph_endpoint (m : dependMap) :
    ∀ n ∈ (build_callgraph m).nodes,
      ∃ e ∈ (build_callgraph m).edges, e.1 = n ∨ e.2.1 = n := by
  unfold build_callgraph
  apply foldl_preserve
    (fun (g : DiGraph) => ∀ n ∈ g.nodes, ∃ e ∈ g.edges, e.1 = n ∨ e.2.1 = n)
  · intro n hn; cases hn
  · intro g kv _ hg n hn
    unfold add_edge at hn ⊢
    rw [addNode_mem_nodes, addNode_mem_nodes] at hn
    rw [addNode_edges, addNode_edges]
    rcases hn with (hn | rfl) | rfl
    · obtain ⟨e, he, hend⟩ := hg n hn
      obtain ⟨e', he', h1, h2⟩ := setEdge_endpoints kv.1.1 kv.1.2 (kv.2 : Int) g.edges e he
      exact ⟨e', he', by rcases hend with h | h
                         · exact Or.inl (h1.trans h)
                         · exact Or.inr (h2.trans h)⟩
    · exact ⟨(kv.1.1, kv.1.2, (kv.2 : Int)),
        setEdge_mem_self kv.1.1 kv.1.2 (kv.2 : Int) g.edges, Or.inl rfl⟩
    · exact ⟨(kv.1.1, kv.1.2, (kv.2 : Int)),
        setEdge_mem_self kv.1.1 kv.1.2 (kv.2 : Int) g.edges, Or.inr rfl⟩

/-- C10. Every node of the graph built by `build_callgraph` is an
endpoint of at least one edge: its in-degree plus out-degree is at least
one, because nodes are only ever introduced by `add_edge`. -/
theorem C10_no_isolated_node (m : dependMap) (n : FunctionID)
    (h : n ∈ (build_callgraph m).nodes) :
    1 ≤ in_degree (build_callgraph m) n + out_degree (build_callgraph m) n := by
  obtain ⟨e, he, hend⟩ := build_callgraph_endpoint m n h
  rcases hend with h1 | h1
  · have hm : e ∈ (build_callgraph m).edges.filter (fun e => e.1 == n) :=
      List.mem_filter.2 ⟨he, by simp [h1]⟩
    have := List.length_pos_of_mem hm
    unfold out_degree
    omega
  · have hm : e ∈ (build_callgraph m).edges.filter (fun e => e.2.1 == n) :=
      List.mem_filter.2 ⟨he, by simp [h1]⟩
    have := List.length_pos_of_mem hm
    unfold in_degree
    omega

/-- Witness for C10: node 1 of the one-edge graph from `dm7`. -/
theorem C10_no_isolated_node_witness :
    1 ≤ in_degree (build_callgraph dm7) 1 + out_degree (build_callgraph dm7) 1 :=
  C10_no_isolated_node dm7 1 (by decide)

/-- C5. A start id absent from the graph makes both searches fail with
the embedded `ValueError` (`none`), never an empty result list; a start
id that is a node never triggers that error. -/
theorem C5_notfound_on_absent_start (g : DiGraph) (j : JellyObject)
    (start : FunctionID) (maxDepth : Nat) :
    (start ∉ g.nodes → search_src g j start maxDepth = none ∧
      search_dst g j start maxDepth = none) ∧
    (start ∈ g.nodes → (search_src g j start maxDepth).isSome ∧
      (search_dst g j start maxDepth).isSome) := by
  constructor
  · intro h
    constructor <;> simp [search_src, search_dst, h]
  · intro h
    constructor
    · unfold search_src
      rw [if_pos h]
      split <;> simp
    · unfold search_dst
      rw [if_pos h]
      split <;> simp

/-- Witness for C5: id 99 is not a node of the `dm7` graph and fails;
id 1 is a node and succeeds. -/
theorem C5_notfound_on_absent_start_witness :
    search_src (build_callgraph dm7) jEmpty 99 100 = none ∧
    (search_src (build_callgraph dm7) jEmpty 1 100).isSome :=
  ⟨((C5_notfound_on_absent_start (build_callgraph dm7) jEmpty 99 100).1
      (by decide)).1,
   ((C5_notfound_on_absent_start (build_callgraph dm7) jEmpty 1 100).2
      (by decide)).1⟩

/-- C6. On the cyclic graph A→B (w=2), B→C (w=3), C→A (w=1) — which has
no leaf — `search_dst` from A with depth limit 2 returns the empty list
of records without raising: every branch is cut by the depth guard and
branch abandonment never fails the query. -/
theorem C6_cycle_empty_no_error :
    search_dst (build_callgraph dm6) jEmpty 1 2 = some [] := by decide

theorem depStep_eq (j : JellyObject) (acc : List ((FunctionID × FunctionID) × Nat))
    (e : CallID × FunctionID) :
    depStep j acc e = match attributesTo j e with
      | none => acc
      | some k => bumpCount acc k := by
  cases halo : alookup j.calls e.1 with
  | none => simp [depStep, attributesTo, halo]
  | some loc =>
    cases hfs : find_src_function loc j.functions with
    | none => simp [depStep, attributesTo, halo, hfs]
    | some src => simp [depStep, attributesTo, halo, hfs]

theorem alookup_bumpCount (k : FunctionID × FunctionID) :
    ∀ (m : List ((FunctionID × FunctionID) × Nat)) (k' : FunctionID × FunctionID),
      (alookup (bumpCount m k) k').getD 0
        = (alookup m k').getD 0 + (if k' = k then 1 else 0) := by
  intro m
  induction m with
  | nil =>
    intro k'
    by_cases h : k = k'
    · subst h; simp [bumpCount, alookup]
    · have h' : ¬ k' = k := fun he => h he.symm
      simp [bumpCount, alookup, h, h']
  | cons kv rest ih =>
    intro k'
    by_cases h1 : kv.1 = k
    · by_cases h2 : k = k'
      · simp [bumpCount, alookup, h1, h2, h1.trans h2]
      · have h3 : ¬ kv.1 = k' := fun he => h2 (h1.symm.trans he)
        have h4 : ¬ k' = k := fun he => h2 he.symm
        simp [bumpCount, alookup, h1, h2, h3, h4]
    · by_cases h2 : kv.1 = k'
      · have h4 : ¬ k' = k := fun he => h1 (h2.trans he)
        simp [bumpCount, alookup, h1, h2, h4]
      · simp [bumpCount, alookup, h1, h2, ih k']

theorem sumVals_bumpCount (k : FunctionID × FunctionID) :
    ∀ m, sumVals (bumpCount m k) = sumVals m + 1 := by
  intro m
  induction m with
  | nil => simp [bumpCount, sumVals]
  | cons kv rest ih =>
    by_cases h1 : kv.1 = k
    · simp only [bumpCount, if_pos h1, sumVals, List.map_cons, List.sum_cons]
      omega
    · simp only [bumpCount, if_neg h1, sumVals, List.map_cons, List.sum_cons] at ih ⊢
      omega

theorem bumpCount_pos (k : FunctionID × FunctionID) :
    ∀ m, (∀ kv ∈ m, 1 ≤ kv.2) → ∀ kv ∈ bumpCount m k, 1 ≤ kv.2 := by
  intro m
  induction m with
  | nil =>
    intro _ kv hkv
    simp only [bumpCount, List.mem_singleton] at hkv
    subst hkv
    exact le_refl 1
  | cons kv0 rest ih =>
    intro hm kv hkv
    by_cases h1 : kv0.1 = k
    · simp only [bumpCount, if_pos h1] at hkv
      rcases List.mem_cons.1 hkv with rfl | hkv'
      · simp
      · exact hm kv (List.mem_cons_of_mem _ hkv')
    · simp only [bumpCount, if_neg h1] at hkv
      rcases List.mem_cons.1 hkv with rfl | hkv'
      · exact hm kv (by simp)
      · exact ih (fun q hq => hm q (List.mem_cons_of_mem _ hq)) kv hkv'

theorem foldl_depStep_lookup (j : JellyObject) (k : FunctionID × FunctionID) :
    ∀ (es : List (CallID × FunctionID)) (m : List ((FunctionID × FunctionID) × Nat)),
      (alookup (es.foldl (depStep j) m) k).getD 0
        = (alookup m k).getD 0 + es.countP (fun e => attributesTo j e == some k) := by
  intro es
  induction es with
  | nil => intro m; simp
  | cons e es ih =>
    intro m
    rw [List.foldl_cons, ih (depStep j m e), List.countP_cons, depStep_eq]
    cases hA : attributesTo j e with
    | none => simp [hA]
    | some k' =>
      by_cases hk : k' = k
      · subst hk
        simp [alookup_bumpCount]
        omega
      · have hne : ¬ k = k' := fun he => hk he.symm
        simp [alookup_bumpCount, hk, hne]

theorem foldl_depStep_pos (j : JellyObject) :
    ∀ (es : List (CallID × FunctionID))
      (m : List ((FunctionID × FunctionID) × Nat)),
      (∀ kv ∈ m, 1 ≤ kv.2) →
      ∀ kv ∈ es.foldl (depStep j) m, 1 ≤ kv.2 := by
  intro es m hm
  apply foldl_preserve
    (fun (acc : List ((FunctionID × FunctionID) × Nat)) => ∀ kv ∈ acc, 1 ≤ kv.2)
  · exact hm
  · intro acc e _ hacc
    rw [depStep_eq]
    cases attributesTo j e with
    | none => exact hacc
    | some k => exact bumpCount_pos k acc hacc

theorem foldl_depStep_sum (j : JellyObject) :
    ∀ (es : List (CallID × FunctionID))
      (m : List ((FunctionID × FunctionID) × Nat)),
      sumVals (es.foldl (depStep j) m)
        = sumVals m + es.countP (fun e => (attributesTo j e).isSome) := by
  intro es
  induction es with
  | nil => intro m; simp
  | cons e es ih =>
    intro m
    rw [List.foldl_cons, ih (depStep j m e), List.countP_cons, depStep_eq]
    cases hA : attributesTo j e with
    | none => simp [hA]
    | some k => simp [hA, sumVals_bumpCount]; omega

theorem countP_attr_split (j : JellyObject) :
    ∀ es : List (CallID × FunctionID),
      es.countP (fun e => (attributesTo j e).isSome)
        + es.countP (fun e => attributesTo j e == none) = es.length := by
  intro es
  induction es with
  | nil => rfl
  | cons e es ih =>
    rw [List.countP_cons, List.countP_cons]
    cases hA : attributesTo j e <;> simp [hA] <;> omega

/-- C2. The dependency map of `dependency_weights` stores, for every
(src, dst) pair, exactly the number of `call2fun` edges whose target is
dst and whose call is recorded and attributes to src; edges with an
unrecorded call id or an unattributable call site are skipped silently,
every stored count is at least 1, and the counts sum to the number of
`call2fun` edges minus the skipped ones. -/
theorem C2_dependency_counts (j : JellyObject) :
    (∀ src dst, get_dependency (dependency_weights j) src dst
        = j.call2fun.countP (fun e => attributesTo j e == some (src, dst))) ∧
    (∀ kv ∈ (dependency_weights j).dependMap, 1 ≤ kv.2) ∧
    sumVals (dependency_weights j).dependMap
      = j.call2fun.length - j.call2fun.countP (fun e => attributesTo j e == none) := by
  refine ⟨?_, ?_, ?_⟩
  · intro src dst
    unfold get_dependency dependency_weights
    rw [foldl_depStep_lookup]
    simp [alookup]
  · unfold dependency_weights
    exact foldl_depStep_pos j j.call2fun [] (fun kv hkv => absurd hkv (by simp))
  · unfold dependency_weights
    rw [foldl_depStep_sum]
    have h := countP_attr_split j j.call2fun
    simp only [sumVals, List.map_nil, List.sum_nil, Nat.zero_add]
    omega

/-- Witness for C2 on `jW`: pair (11, 12) counts its two attributed
edges, the stored count of (11, 12) is at least 1, and the total 3
equals the 5 edges minus the 2 skipped ones. -/
theorem C2_dependency_counts_witness :
    get_dependency (dependency_weights jW) 11 12
      = jW.call2fun.countP (fun e => attributesTo jW e == some (11, 12)) ∧
    1 ≤ (((11, 12), 2) : (FunctionID × FunctionID) × Nat).2 ∧
    sumVals (dependency_weights jW).dependMap
      = jW.call2fun.length - jW.call2fun.countP (fun e => attributesTo jW e == none) :=
  ⟨(C2_dependency_counts jW).1 11 12,
   (C2_dependency_counts jW).2.1 ((11, 12), 2) (by decide),
   (C2_dependency_counts jW).2.2⟩

theorem alookup_step_char (j : JellyObject) (p : FunctionID)
    (path : List FunctionID) (parents : List (FunctionID × location))
    (hpar : ∀ n loc, alookup parents n = some loc ↔
      (n ∈ path ∧ alookup j.functions n = some loc)) :
    ∀ n loc, alookup (match alookup j.functions p with
        | some loc0 => dictInsert parents p loc0
        | none => parents) n = some loc ↔
      (n ∈ path ++ [p] ∧ alookup j.functions n = some loc) := by
  intro n loc
  cases halo : alookup j.functions p with
  | some loc0 =>
    simp only [halo]
    rw [alookup_dictInsert]
    by_cases hn : p = n
    · subst hn
      rw [if_pos rfl]
      constructor
      · intro h
        exact ⟨by simp, by rw [halo]; exact h⟩
      · rintro ⟨_, h⟩
        rw [halo] at h
        exact h
    · rw [if_neg hn, hpar n loc]
      simp only [List.mem_append, List.mem_singleton]
      constructor
      · rintro ⟨hnp, hl⟩
        exact ⟨Or.inl hnp, hl⟩
      · rintro ⟨hnp | rfl, hl⟩
        · exact ⟨hnp, hl⟩
        · exact absurd rfl hn
  | none =>
    simp only [halo]
    rw [hpar n loc]
    simp only [List.mem_append, List.mem_singleton]
    constructor
    · rintro ⟨hnp, hl⟩
      exact ⟨Or.inl hnp, hl⟩
    · rintro ⟨hnp | rfl, hl⟩
      · exact ⟨hnp, hl⟩
      · rw [halo] at hl
        cases hl

theorem dfsSrc_inv (g : DiGraph) (j : JellyObject) (roots : List FunctionID)
    (maxDepth : Nat) (start : FunctionID) :
    ∀ (fuel : Nat) (node : FunctionID) (path : List FunctionID) (weight : Int)
      (visited : List FunctionID) (parents : List (FunctionID × location))
      (st : SrcState),
      path.head? = some start →
      path.getLast? = some node →
      path.Nodup →
      (∀ x, x ∈ visited ↔ x ∈ path) →
      (∀ n loc, alookup parents n = some loc ↔
        (n ∈ path ∧ alookup j.functions n = some loc)) →
      (∀ r ∈ st.1, SrcRecOK j roots start r) →
      ∀ r ∈ (dfsSrc g j roots maxDepth fuel node path weight visited parents
        st).1, SrcRecOK j roots start r := by
  intro fuel
  induction fuel with
  | zero =>
    intro node path weight visited parents st _ _ _ _ _ hst
    exact hst
  | succ fuel ih =>
    intro node path weight visited parents st hhead hlast hnodup hvis hpar hst
    intro r hr
    rw [dfsSrc] at hr
    split at hr
    · exact hst r hr
    · split at hr
      · rename_i hroot
        split at hr
        · exact hst r hr
        · rcases List.mem_append.1 hr with h | h
          · exact hst r h
          · simp only [List.mem_singleton] at h
            subst h
            exact ⟨hhead, ⟨node, hlast, hroot⟩, hnodup, hpar⟩
      · refine foldl_preserve
          (fun (st' : SrcState) => ∀ r' ∈ st'.1, SrcRecOK j roots start r')
          _ (predecessors g node) st hst ?_ r hr
        intro st' p _ hst'
        by_cases hpv : p ∈ visited
        · rw [if_pos hpv]
          exact hst'
        · rw [if_neg hpv]
          exact ih p (path ++ [p]) _ (visited ++ [p]) _ st'
            (concat_head? path p start hhead)
            (concat_getLast? path p)
            (concat_nodup path p hnodup (fun hm => hpv ((hvis p).2 hm)))
            (fun x => by
              simp only [List.mem_append, List.mem_singleton]
              rw [hvis x])
            (alookup_step_char j p path parents hpar)
            hst'

theorem dfsDst_inv (g : DiGraph) (j : JellyObject) (leaves : List FunctionID)
    (maxDepth : Nat) (start : FunctionID) :
    ∀ (fuel : Nat) (node : FunctionID) (path : List FunctionID) (weight : Int)
      (visited : List FunctionID) (children : List (FunctionID × location))
      (st : DstState),
      path.head? = some start →
      path.getLast? = some node →
      path.Nodup →
      (∀ x, x ∈ visited ↔ x ∈ path) →
      (∀ n loc, alookup children n = some loc ↔
        (n ∈ path ∧ alookup j.functions n = some loc)) →
      (∀ r ∈ st.1, DstRecOK j leaves start r) →
      ∀ r ∈ (dfsDst g j leaves maxDepth fuel node path weight visited children
        st).1, DstRecOK j leaves start r := by
  intro fuel
  induction fuel with
  | zero =>
    intro node path weight visited children st _ _ _ _ _ hst
    exact hst
  | succ fuel ih =>
    intro node path weight visited children st hhead hlast hnodup hvis hpar hst
    intro r hr
    rw [dfsDst] at hr
    split at hr
    · exact hst r hr
    · split at hr
      · rename_i hleaf
        split at hr
        · exact hst r hr
        · rcases List.mem_append.1 hr with h | h
          · exact hst r h
          · simp only [List.mem_singleton] at h
            subst h
            exact ⟨hhead, ⟨node, hlast, hleaf⟩, hnodup, hpar⟩
      · refine foldl_preserve
          (fun (st' : DstState) => ∀ r' ∈ st'.1, DstRecOK j leaves start r')
          _ (successors g node) st hst ?_ r hr
        intro st' s _ hst'
        by_cases hsv : s ∈ visited
        · rw [if_pos hsv]
          exact hst'
        · rw [if_neg hsv]
          exact ih s (path ++ [s]) _ (visited ++ [s]) _ st'
            (concat_head? path s start hhead)
            (concat_getLast? path s)
            (concat_nodup path s hnodup (fun hm => hsv ((hvis s).2 hm)))
            (fun x => by
              simp only [List.mem_append, List.mem_singleton]
              rw [hvis x])
            (alookup_step_char j s path children hpar)
            hst'

theorem mem_find_root_nodes (g : DiGraph) (t : FunctionID) :
    t ∈ find_root_nodes g ↔ (t ∈ g.nodes ∧ in_degree g t = 0) := by
  simp [find_root_nodes, List.mem_filter]

theorem mem_find_leaf_nodes (g : DiGraph) (t : FunctionID) :
    t ∈ find_leaf_nodes g ↔ (t ∈ g.nodes ∧ out_degree g t = 0) := by
  simp [find_leaf_nodes, List.mem_filter]

/-- Every record of a successful `search_src`: path from `start` to a
root without repetition, and either the trivial root record with empty
parents, or a parents map binding exactly the recorded path nodes. -/
theorem search_src_paths (g : DiGraph) (j : JellyObject) (start : FunctionID)
    (maxDepth : Nat) (res : List SrcPathInfo)
    (h : search_src g j start maxDepth = some res) :
    ∀ r ∈ res,
      r.path.head? = some start ∧
      (∃ t, r.path.getLast? = some t ∧ t ∈ find_root_nodes g) ∧
      r.path.Nodup ∧
      ((r.path = [start] ∧ r.parents = []) ∨
        (∀ n loc, alookup r.parents n = some loc ↔
          (n ∈ r.path ∧ alookup j.functions n = some loc))) := by
  intro r hr
  unfold search_src at h
  split at h
  · split at h
    · rename_i hroot
      injection h with h
      subst h
      simp only [List.mem_singleton] at hr
      subst hr
      exact ⟨rfl, ⟨start, rfl, hroot⟩, List.nodup_singleton start,
        Or.inl ⟨rfl, rfl⟩⟩
    · injection h with h
      subst h
      have hrec := dfsSrc_inv g j (find_root_nodes g) maxDepth start
        (maxDepth + 1) start [start] 0 [start] (initLocs j start) ([], [])
        rfl rfl (List.nodup_singleton start)
        (fun x => Iff.rfl)
        (initLocs_char j start)
        (fun r' hr' => absurd hr' (by simp))
        r hr
      exact ⟨hrec.1, hrec.2.1, hrec.2.2.1, Or.inr hrec.2.2.2⟩
  · exact Option.noConfusion h

/-- Every record of a successful `search_dst`: path from `start` to a
leaf without repetition, and a children map binding exactly the recorded
path nodes (the trivial leaf record included, since it carries the
start's own location). -/
theorem search_dst_paths (g : DiGraph) (j : JellyObject) (start : FunctionID)
    (maxDepth : Nat) (res : List DstPathInfo)
    (h : search_dst g j start maxDepth = some res) :
    ∀ r ∈ res,
      r.path.head? = some start ∧
      (∃ t, r.path.getLast? = some t ∧ t ∈ find_leaf_nodes g) ∧
      r.path.Nodup ∧
      (∀ n loc, alookup r.children n = some loc ↔
        (n ∈ r.path ∧ alookup j.functions n = some loc)) := by
  intro r hr
  unfold search_dst at h
  split at h
  · split at h
    · rename_i hleaf
      injection h with h
      subst h
      simp only [List.mem_singleton] at hr
      subst hr
      exact ⟨rfl, ⟨start, rfl, hleaf⟩, List.nodup_singleton start,
        initLocs_char j start⟩
    · injection h with h
      subst h
      have hrec := dfsDst_inv g j (find_leaf_nodes g) maxDepth start
        (maxDepth + 1) start [start] 0 [start] (initLocs j start) ([], [])
        rfl rfl (List.nodup_singleton start)
        (fun x => Iff.rfl)
        (initLocs_char j start)
        (fun r' hr' => absurd hr' (by simp))
        r hr
      exact hrec
  · exact Option.noConfusion h

/-- C3. On a call graph built from a dependency map, every caller-ward
record's path begins at the queried function and ends at a node of
in-degree 0, and every callee-ward record's path begins there and ends
at a node of out-degree 0. -/
theorem C3_paths_end_at_frontier (dm : dependMap) (j : JellyObject)
    (start : FunctionID) (maxDepth : Nat)
    (resS : List SrcPathInfo) (resD : List DstPathInfo)
    (hS : search_src (build_callgraph dm) j start maxDepth = some resS)
    (hD : search_dst (build_callgraph dm) j start maxDepth = some resD) :
    (∀ r ∈ resS, r.path.head? = some start ∧
      ∃ t, r.path.getLast? = some t ∧ in_degree (build_callgraph dm) t = 0) ∧
    (∀ r ∈ resD, r.path.head? = some start ∧
      ∃ t, r.path.getLast? = some t ∧ out_degree (build_callgraph dm) t = 0) := by
  constructor
  · intro r hr
    obtain ⟨h1, ⟨t, h2, h3⟩, _, _⟩ :=
      search_src_paths (build_callgraph dm) j start maxDepth resS hS r hr
    exact ⟨h1, t, h2, ((mem_find_root_nodes (build_callgraph dm) t).1 h3).2⟩
  · intro r hr
    obtain ⟨h1, ⟨t, h2, h3⟩, _, _⟩ :=
      search_dst_paths (build_callgraph dm) j start maxDepth resD hD r hr
    exact ⟨h1, t, h2, ((mem_find_leaf_nodes (build_callgraph dm) t).1 h3).2⟩

/-- Witness for C3 on the diamond graph `dmDemo` from start 1: the
caller-ward record [1, 2, 4] ends at root 4, and the callee-ward record
[1] ends at leaf 1. -/
theorem C3_paths_end_at_frontier_witness :
    ((⟨[1, 2, 4], 2, 4, []⟩ : SrcPathInfo).path.head? = some 1 ∧
      ∃ t, (⟨[1, 2, 4], 2, 4, []⟩ : SrcPathInfo).path.getLast? = some t ∧
        in_degree (build_callgraph dmDemo) t = 0) ∧
    ((⟨[1], 0, []⟩ : DstPathInfo).path.head? = some 1 ∧
      ∃ t, (⟨[1], 0, []⟩ : DstPathInfo).path.getLast? = some t ∧
        out_degree (build_callgraph dmDemo) t = 0) :=
  ⟨(C3_paths_end_at_frontier dmDemo jEmpty 1 100
      [⟨[1, 2, 4], 2, 4, []⟩, ⟨[1, 3, 4], 2, 4, []⟩] [⟨[1], 0, []⟩]
      (by decide) (by decide)).1 ⟨[1, 2, 4], 2, 4, []⟩ (by decide),
   (C3_paths_end_at_frontier dmDemo jEmpty 1 100
      [⟨[1, 2, 4], 2, 4, []⟩, ⟨[1, 3, 4], 2, 4, []⟩] [⟨[1], 0, []⟩]
      (by decide) (by decide)).2 ⟨[1], 0, []⟩ (by decide)⟩

/-- C4. Paths of emitted records never repeat a function id — the
visited set is scoped to the current path, not global — and on the
diamond graph the same node 4 does occur in two distinct emitted
paths. -/
theorem C4_simple_paths :
    (∀ (g : DiGraph) (j : JellyObject) (start : FunctionID) (maxDepth : Nat)
      (res : List SrcPathInfo), search_src g j start maxDepth = some res →
        ∀ r ∈ res, r.path.Nodup) ∧
    (∀ (g : DiGraph) (j : JellyObject) (start : FunctionID) (maxDepth : Nat)
      (res : List DstPathInfo), search_dst g j start maxDepth = some res →
        ∀ r ∈ res, r.path.Nodup) ∧
    (search_src (build_callgraph dmDemo) jEmpty 1 100 =
        some [⟨[1, 2, 4], 2, 4, []⟩, ⟨[1, 3, 4], 2, 4, []⟩] ∧
      (4 : FunctionID) ∈ ([1, 2, 4] : List FunctionID) ∧
      (4 : FunctionID) ∈ ([1, 3, 4] : List FunctionID) ∧
      ([1, 2, 4] : List FunctionID) ≠ [1, 3, 4]) := by
  refine ⟨?_, ?_, by decide, by decide, by decide, by decide⟩
  · intro g j start maxDepth res h r hr
    exact (search_src_paths g j start maxDepth res h r hr).2.2.1
  · intro g j start maxDepth res h r hr
    exact (search_dst_paths g j start maxDepth res h r hr).2.2.1

/-- Witness for C4: the first record of the diamond-graph search has a
duplicate-free path. -/
theorem C4_simple_paths_witness :
    (⟨[1, 2, 4], 2, 4, []⟩ : SrcPathInfo).path.Nodup :=
  C4_simple_paths.1 (build_callgraph dmDemo) jEmpty 1 100
    [⟨[1, 2, 4], 2, 4, []⟩, ⟨[1, 3, 4], 2, 4, []⟩] (by decide)
    ⟨[1, 2, 4], 2, 4, []⟩ (by decide)

/-- Counterexample to C7: on the graph 1→2 with function 1 recorded in
the table, the trivial caller-ward record carries an *empty* parents
map, not one containing only the start node's own location as the claim
states. -/
theorem C7_counterexample :
    search_src (build_callgraph dm7) j7 1 100 ≠
      some [⟨[1], 0, 1, [(1, locA)]⟩] ∧
    search_src (build_callgraph dm7) j7 1 100 = some [⟨[1], 0, 1, []⟩] ∧
    alookup j7.functions 1 = some locA := by decide

/-- C7 amended: when the start is a root, `search_src` returns exactly
one record — path [start], weight 0, root start — whose parents map is
*empty*; when the start is a leaf, `search_dst` returns exactly one
record — path [start], weight 0 — whose children map holds the start's
own location when the function table records it (`initLocs`). -/
theorem C7_amended_trivial_record (g : DiGraph) (j : JellyObject)
    (start : FunctionID) (maxDepth : Nat) :
    (start ∈ g.nodes → in_degree g start = 0 →
      search_src g j start maxDepth = some [⟨[start], 0, start, []⟩]) ∧
    (start ∈ g.nodes → out_degree g start = 0 →
      search_dst g j start maxDepth = some [⟨[start], 0, initLocs j start⟩]) := by
  constructor
  · intro hmem hdeg
    unfold search_src
    rw [if_pos hmem, if_pos ((mem_find_root_nodes g start).2 ⟨hmem, hdeg⟩)]
  · intro hmem hdeg
    unfold search_dst
    rw [if_pos hmem, if_pos ((mem_find_leaf_nodes g start).2 ⟨hmem, hdeg⟩)]

/-- Witness for the amended C7: root 1 and leaf 2 of the graph 1→2. -/
theorem C7_amended_trivial_record_witness :
    search_src (build_callgraph dm7) j7 1 100 = some [⟨[1], 0, 1, []⟩] ∧
    search_dst (build_callgraph dm7) j7 2 100 =
      some [⟨[2], 0, initLocs j7 2⟩] :=
  ⟨(C7_amended_trivial_record (build_callgraph dm7) j7 1 100).1
      (by decide) (by decide),
   (C7_amended_trivial_record (build_callgraph dm7) j7 2 100).2
      (by decide) (by decide)⟩

/-- Counterexample to C8: on the graph 2→1 with both functions recorded,
the record for path [1, 2] binds the *start* key 1 in its parents map,
so the key set is not the path excluding the start. -/
theorem C8_counterexample :
    search_src (build_callgraph dm8) j7 1 100 =
      some [⟨[1, 2], 5, 2, [(1, locA), (2, locB)]⟩] ∧
    alookup (SrcPathInfo.parents ⟨[1, 2], 5, 2, [(1, locA), (2, locB)]⟩) 1 =
      some locA := by decide

/-- C8 amended: each caller-ward record's parents map binds exactly the
functions on its path — the start included — that appear in the function
table, each to its Range; except the trivial root record, whose parents
map is empty. -/
theorem C8_amended_parents_cover_path (g : DiGraph) (j : JellyObject)
    (start : FunctionID) (maxDepth : Nat) (res : List SrcPathInfo)
    (h : search_src g j start maxDepth = some res) :
    ∀ r ∈ res,
      (r.path = [start] ∧ r.parents = []) ∨
      (∀ n loc, alookup r.parents n = some loc ↔
        (n ∈ r.path ∧ alookup j.functions n = some loc)) := by
  intro r hr
  exact (search_src_paths g j start maxDepth res h r hr).2.2.2

/-- Witness for the amended C8 on the graph 2→1: the record for path
[1, 2] satisfies the parents characterization (in particular it binds
the start). -/
theorem C8_amended_parents_cover_path_witness :
    ((⟨[1, 2], 5, 2, [(1, locA), (2, locB)]⟩ : SrcPathInfo).path = [1] ∧
      (⟨[1, 2], 5, 2, [(1, locA), (2, locB)]⟩ : SrcPathInfo).parents = []) ∨
    (∀ n loc,
      alookup (⟨[1, 2], 5, 2, [(1, locA), (2, locB)]⟩ : SrcPathInfo).parents n
          = some loc ↔
        (n ∈ (⟨[1, 2], 5, 2, [(1, locA), (2, locB)]⟩ : SrcPathInfo).path ∧
          alookup j7.functions n = some loc)) :=
  C8_amended_parents_cover_path (build_callgraph dm8) j7 1 100
    [⟨[1, 2], 5, 2, [(1, locA), (2, locB)]⟩] (by decide)
    ⟨[1, 2], 5, 2, [(1, locA), (2, locB)]⟩ (by decide)

end JellyGraph
